import Mathlib

/-!
# Verification of the crypto-visual dashboard pipeline

Shallow embedding of `src/app.py` (market-data fetch, liquidity metrics,
realized volatility, depth chart) and proofs of the specification claims.

Conventions of the embedding:
* Python/pandas floats are modelled by `Option ℚ`: `some q` is an ordinary
  finite float value (rounding abstracted away, arithmetic exact) and `none`
  is `NaN`.  Arithmetic propagates `none`; comparisons with `none` are
  `false`, matching IEEE NaN semantics used by pandas filters.
* pandas `Series.max()` / `Series.min()` over a possibly-empty column are
  modelled by `seriesMax` / `seriesMin`, returning `none` (NaN) on an empty
  column.
* Fallible parsing (`raw["bids"]`, `DataFrame(...)`, `astype(float)`,
  `to_datetime`) is modelled with `Option` / `Except DataFormatError`:
  the `.error` branch corresponds to the Python code raising
  (`KeyError` / `ValueError`), which the design taxonomy calls
  `DataFormatError`.
* The realized-volatility pipeline uses real numbers (`Real.log`,
  `Real.sqrt`); pandas NaN propagation through `diff` and `rolling` is
  modelled with `Option ℝ`.
-/

/-- Order-book side; in the source a string column with values
`"bid"` / `"ask"`.  `sort_values(["side", "price"])` sorts the strings
ascending, and `"ask" < "bid"` lexicographically, so asks come first. -/
inductive Side where
  | bid
  | ask
deriving DecidableEq, Repr

/-- Rank of a side under Python string ordering: `"ask" < "bid"`. -/
def sideRank : Side → ℕ
  | .ask => 0
  | .bid => 1

/-- One order-book level: a row of the `ob` DataFrame built in
`get_orderbook` (columns `side`, `price`, `qty`, `notional`). -/
structure Level where
  side : Side
  price : ℚ
  qty : ℚ
  notional : ℚ
deriving DecidableEq, Repr

/-- NaN-propagating addition on pandas floats (`Option ℚ`). -/
def pfAdd (a b : Option ℚ) : Option ℚ :=
  match a, b with
  | some x, some y => some (x + y)
  | _, _ => none

/-- NaN-propagating subtraction on pandas floats. -/
def pfSub (a b : Option ℚ) : Option ℚ :=
  match a, b with
  | some x, some y => some (x - y)
  | _, _ => none

/-- NaN-propagating multiplication on pandas floats. -/
def pfMul (a b : Option ℚ) : Option ℚ :=
  match a, b with
  | some x, some y => some (x * y)
  | _, _ => none

/-- NaN-propagating division on pandas floats (division by an exact zero,
which cannot arise for positive prices, is abstracted by `ℚ` division). -/
def pfDiv (a b : Option ℚ) : Option ℚ :=
  match a, b with
  | some x, some y => some (x / y)
  | _, _ => none

/-- Comparison `a <= b` on pandas floats: any comparison against NaN is
`false`, as in IEEE/numpy elementwise comparisons. -/
def pfLeB (a b : Option ℚ) : Bool :=
  match a, b with
  | some x, some y => decide (x ≤ y)
  | _, _ => false

/-- pandas `Series.max()`: `NaN` (`none`) on an empty column. -/
def seriesMax : List ℚ → Option ℚ
  | [] => none
  | x :: xs =>
    match seriesMax xs with
    | none => some x
    | some m => some (max x m)

/-- pandas `Series.min()`: `NaN` (`none`) on an empty column. -/
def seriesMin : List ℚ → Option ℚ
  | [] => none
  | x :: xs =>
    match seriesMin xs with
    | none => some x
    | some m => some (min x m)

/-- The `price` column of the bid rows: `ob[ob["side"]=="bid"]["price"]`. -/
def bidPrices (ob : List Level) : List ℚ :=
  (ob.filter fun l => decide (l.side = Side.bid)).map Level.price

/-- The `price` column of the ask rows: `ob[ob["side"]=="ask"]["price"]`. -/
def askPrices (ob : List Level) : List ℚ :=
  (ob.filter fun l => decide (l.side = Side.ask)).map Level.price

/-- Embeds `best_bid = ob[ob["side"]=="bid"]["price"].max()` (line 43). -/
def bestBid (ob : List Level) : Option ℚ :=
  seriesMax (bidPrices ob)

/-- Embeds `best_ask = ob[ob["side"]=="ask"]["price"].min()` (line 44). -/
def bestAsk (ob : List Level) : Option ℚ :=
  seriesMin (askPrices ob)

/-- The dict returned by `liquidity_metrics` (lines 50-51). -/
structure Metrics where
  mid_price : Option ℚ
  spread_abs : Option ℚ
  spread_bps : Option ℚ
  depth_10bp : ℚ
deriving DecidableEq, Repr

/-- Embeds `liquidity_metrics(ob)` (lines 42-51).  `0.001` is the rational
`1/1000` (float rounding abstracted).  The two depth sums are pandas sums
of the filtered `notional` column; a pandas sum of an empty selection is
`0.0`, hence the `depth_10bp` field is a plain number even when the
filters are vacuous. -/
def liquidity_metrics (ob : List Level) : Metrics :=
  let best_bid := bestBid ob
  let best_ask := bestAsk ob
  let spread := pfSub best_ask best_bid
  let mid := pfDiv (pfAdd best_ask best_bid) (some 2)
  let rel_spread_bps := pfMul (pfDiv spread mid) (some 10000)
  let depth_10bp :=
    ((ob.filter fun l =>
        decide (l.side = Side.bid) && pfLeB (pfMul mid (some (1 - 1/1000))) (some l.price)).map
      Level.notional).sum
    + ((ob.filter fun l =>
        decide (l.side = Side.ask) && pfLeB (some l.price) (pfMul mid (some (1 + 1/1000)))).map
      Level.notional).sum
  ⟨mid, spread, rel_spread_bps, depth_10bp⟩

/-- The depth-band sum of `liquidity_metrics` with the band half-width
generalized from the hard-coded `0.001` to a parameter `w`
(`depthBand ob (1/1000)` equals the `depth_10bp` field, see
`depthBand_milli`). -/
def depthBand (ob : List Level) (w : ℚ) : ℚ :=
  let mid := pfDiv (pfAdd (bestAsk ob) (bestBid ob)) (some 2)
  ((ob.filter fun l =>
      decide (l.side = Side.bid) && pfLeB (pfMul mid (some (1 - w))) (some l.price)).map
    Level.notional).sum
  + ((ob.filter fun l =>
      decide (l.side = Side.ask) && pfLeB (some l.price) (pfMul mid (some (1 + w)))).map
    Level.notional).sum

/-! ## JSON responses and parsing (`get_orderbook`, `get_klines`) -/

/-- A JSON value, as returned by `binance_get` (`r.json()`). -/
inductive Json where
  | null
  | bool (b : Bool)
  | num (q : ℚ)
  | str (s : String)
  | arr (xs : List Json)
  | obj (kvs : List (String × Json))

/-- Dictionary access `raw[key]`: `none` models the Python code raising
(`KeyError` on a missing key, `TypeError` on a non-dict). -/
def jget (j : Json) (key : String) : Option Json :=
  match j with
  | .obj kvs => kvs.lookup key
  | _ => none

/-- Positional access into a JSON array row. -/
def jIdx (j : Json) (n : ℕ) : Option Json :=
  match j with
  | .arr xs => xs.get? n
  | _ => none

/-- Numeric value of a digit run; `none` unless every character is a
decimal digit (and the run is nonempty). -/
def decDigits (cs : List Char) : Option ℕ :=
  if cs ≠ [] ∧ cs.all Char.isDigit then
    some (cs.foldl (fun a c => a * 10 + (c.toNat - 48)) 0)
  else none

/-- Python `float(s)` on the plain decimal strings the exchange sends
(`"123"`, `"123.45"`, optional sign, optional trailing `"."`);
exotic float syntax (exponents, `inf`, `nan`) is out of scope of the
responses being modelled and maps to `none`. -/
def parseDec (s : String) : Option ℚ :=
  let signed : List Char → Option ℚ := fun cs =>
    match cs.span (fun c => decide (c ≠ '.')) with
    | (ip, []) => (decDigits ip).map (fun n => (n : ℚ))
    | (ip, _ :: fp) =>
      if fp.contains '.' then none
      else if fp = [] then (decDigits ip).map (fun n => (n : ℚ))
      else
        match decDigits ip, decDigits fp with
        | some n, some f => some ((n : ℚ) + (f : ℚ) / 10 ^ fp.length)
        | _, _ => none
  match s.toList with
  | '-' :: rest => (signed rest).map Neg.neg
  | '+' :: rest => signed rest
  | rest => signed rest

/-- Models `astype(float)` / `float(...)` applied to one JSON scalar: numbers pass
through, numeric strings are parsed, anything else raises (`none`). -/
def jnum (j : Json) : Option ℚ :=
  match j with
  | .num q => some q
  | .str s => parseDec s
  | _ => none

/-- Collects a list of fallible results, failing if any entry failed. -/
def optionSequence {α : Type} : List (Option α) → Option (List α)
  | [] => some []
  | none :: _ => none
  | some x :: xs => (optionSequence xs).map (x :: ·)

/-- The design's error taxonomy for unparseable responses (§7): in the
source this is the uncaught `KeyError` / `ValueError` raised by
`raw["bids"]`, `pd.DataFrame(...)` or `astype(float)`. -/
inductive DataFormatError where
  | dataFormat
deriving DecidableEq, Repr

/-- One `[price, qty]` row of a depth side, through
`pd.DataFrame(..., columns=["price","qty"]).astype(float)` plus the
`notional = price * qty` column added on line 38. -/
def parseLevelRow (s : Side) (j : Json) : Option Level :=
  match j with
  | .arr [p, q] =>
    match jnum p, jnum q with
    | some pv, some qv => some ⟨s, pv, qv, pv * qv⟩
    | _, _ => none
  | _ => none

/-- One side of the depth response (`raw["bids"]` / `raw["asks"]`)
parsed into levels; `none` models the DataFrame construction or the
float conversion raising. -/
def parseSide (s : Side) (j : Json) : Option (List Level) :=
  match j with
  | .arr rows => optionSequence (rows.map (parseLevelRow s))
  | _ => none

/-- Lexicographic row order of `ob.sort_values(["side","price"],
ascending=[True, True])`: side string ascending (`"ask" < "bid"`), then
price ascending. -/
def levelLE (a b : Level) : Prop :=
  sideRank a.side < sideRank b.side ∨
    (sideRank a.side = sideRank b.side ∧ a.price ≤ b.price)

instance : DecidableRel levelLE := fun a b => by
  unfold levelLE; infer_instance

instance : IsTotal Level levelLE where
  total a b := by
    rcases lt_trichotomy (sideRank a.side) (sideRank b.side) with h | h | h
    · exact Or.inl (Or.inl h)
    · rcases le_total a.price b.price with hp | hp
      · exact Or.inl (Or.inr ⟨h, hp⟩)
      · exact Or.inr (Or.inr ⟨h.symm, hp⟩)
    · exact Or.inr (Or.inl h)

instance : IsTrans Level levelLE where
  trans a b c hab hbc := by
    rcases hab with h1 | ⟨e1, p1⟩
    · rcases hbc with h2 | ⟨e2, _⟩
      · exact Or.inl (h1.trans h2)
      · exact Or.inl (e2 ▸ h1)
    · rcases hbc with h2 | ⟨e2, p2⟩
      · exact Or.inl (e1 ▸ h2)
      · exact Or.inr ⟨e1.trans e2, p1.trans p2⟩

/-- Embeds `ob.sort_values(["side","price"], ascending=[True, True])` (line 39). -/
def sortLevels (ls : List Level) : List Level :=
  ls.insertionSort levelLE

/-- Embeds `get_orderbook` (lines 32-39) applied to the decoded JSON response:
builds bid and ask levels, concatenates, adds the notional column and
sorts; any parse failure is the uncaught exception (`DataFormatError`). -/
def get_orderbook (raw : Json) : Except DataFormatError (List Level) :=
  match jget raw "bids", jget raw "asks" with
  | some jb, some ja =>
    match parseSide Side.bid jb, parseSide Side.ask ja with
    | some bids, some asks => .ok (sortLevels (bids ++ asks))
    | _, _ => .error .dataFormat
  | _, _ => .error .dataFormat

/-- The column labels of the kline DataFrame (line 24). -/
def klineCols : List String :=
  ["open_time", "open", "high", "low", "close", "volume", "close_time",
   "quote_vol", "trades", "taker_base", "taker_quote", "ignore"]

/-- A UTC-aware timestamp, carrying its epoch offset in milliseconds
(what `pd.to_datetime(·, unit="ms", utc=True)` produces). -/
structure UtcTime where
  millis : ℚ
deriving DecidableEq, Repr

/-- Models `pd.to_datetime(x, unit="ms", utc=True)` on one epoch value. -/
def toDatetimeMsUtc (q : ℚ) : UtcTime := ⟨q⟩

/-- One row of the frame `get_klines` returns: UTC close-time index plus
the five retained numeric columns.  `to_numeric(errors="coerce")` turns
unparseable fields into NaN (`none`) instead of raising. -/
structure Candle where
  time : UtcTime
  open_ : Option ℚ
  high : Option ℚ
  low : Option ℚ
  close : Option ℚ
  volume : Option ℚ
deriving DecidableEq, Repr

/-- One kline row (12 positional fields, per `klineCols`): the row shape
must match the column list, the `close_time` field (position 6) must be a
JSON number for `to_datetime(..., unit="ms")`, and the numeric columns
go through `to_numeric(errors="coerce")` (`jnum`, coercing to `none`). -/
def parseKlineRow (j : Json) : Option Candle :=
  match j with
  | .arr [_ot, o, h, l, c, v, ct, _qv, _tr, _tb, _tq, _ig] =>
    match ct with
    | .num ms =>
      some ⟨toDatetimeMsUtc ms, jnum o, jnum h, jnum l, jnum c, jnum v⟩
    | _ => none
  | _ => none

/-- Embeds `get_klines` (lines 22-30) applied to the decoded JSON response. -/
def get_klines (raw : Json) : Except DataFormatError (List Candle) :=
  match raw with
  | .arr rows =>
    match optionSequence (rows.map parseKlineRow) with
    | some cs => .ok cs
    | none => .error .dataFormat
  | _ => .error .dataFormat

/-! ## Depth chart cumulative quantities (`build_dashboard`, lines 104-105) -/

/-- Running sums with initial accumulator `acc` (pandas `cumsum`). -/
def cumsumFrom (acc : ℚ) : List ℚ → List ℚ
  | [] => []
  | x :: xs => (acc + x) :: cumsumFrom (acc + x) xs

/-- pandas `cumsum` of a column. -/
def cumsum (xs : List ℚ) : List ℚ := cumsumFrom 0 xs

/-- The `cum_qty` values of one side of the depth chart:
`ob_plot.groupby("side")["qty"].cumsum()` restricted to the rows of side
`s`, in row order (the book is already sorted by side then price). -/
def cumQtySide (ob : List Level) (s : Side) : List ℚ :=
  cumsum ((ob.filter fun l => decide (l.side = s)).map Level.qty)

/-- The price sequence of one side, in row order. -/
def sidePrices (ob : List Level) (s : Side) : List ℚ :=
  (ob.filter fun l => decide (l.side = s)).map Level.price

/-! ## Realized volatility (`realized_vol`, lines 53-57)

The float series `r = np.log(df["close"]).diff()` and its rolling
statistics are modelled over `ℝ` with `Option` for NaN: `diff` puts a NaN
at position 0, and `rolling(window).std()` is NaN at any position whose
trailing window is incomplete or touches a NaN.  `std` uses the pandas
default `ddof=1`; a window with at most one observation has a zero
denominator and is NaN. -/

/-- Models `np.log(close).diff()`: `none` (NaN) at position 0, then successive
log differences.  An empty series stays empty. -/
noncomputable def diffLog : List ℝ → List (Option ℝ)
  | [] => []
  | c :: rest =>
    none :: List.zipWith (fun a b => some (Real.log b - Real.log a)) (c :: rest) rest

/-- The well-defined log-returns of a close series (one shorter than the
series): `logRets closes = [ln c₁ − ln c₀, …]`. -/
noncomputable def logRets (closes : List ℝ) : List ℝ :=
  List.zipWith (fun a b => Real.log b - Real.log a) closes closes.tail

/-- Sample standard deviation with `ddof=1` (the pandas default):
NaN (`none`) when there are fewer than two observations. -/
noncomputable def sampleStd (xs : List ℝ) : Option ℝ :=
  if xs.length ≤ 1 then none
  else
    some (Real.sqrt
      (((xs.map fun x => (x - xs.sum / xs.length) ^ 2).sum) / ((xs.length : ℝ) - 1)))

/-- Models `r.rolling(window).std()` at position `i`: NaN while fewer than
`window` positions exist, otherwise the sample std of the trailing
`window` entries, NaN if any of them is NaN. -/
noncomputable def rollingStdAt (r : List (Option ℝ)) (window i : ℕ) : Option ℝ :=
  if i + 1 < window then none
  else (optionSequence ((r.drop (i + 1 - window)).take window)).bind sampleStd

/-- Embeds `realized_vol` (lines 53-57): the `rv` column,
`(r.rolling(window).std() * np.sqrt(60)).fillna(0)`, one value per
candle. -/
noncomputable def realized_vol (closes : List ℝ) (window : ℕ) : List ℝ :=
  (List.range closes.length).map fun i =>
    match rollingStdAt (diffLog closes) window i with
    | none => 0
    | some s => s * Real.sqrt 60

/-- The trailing window of log-returns feeding the rolling std at candle
position `i`: the `window` most recent returns up to and including the
return ending at candle `i` (spec §4.2). -/
noncomputable def trailingReturns (closes : List ℝ) (window i : ℕ) : List ℝ :=
  ((logRets closes).drop (i - window)).take window

/-- The spec's rolling standard deviation of a full window (§4.2,
sample std over `window` returns), written independently of the
pipeline plumbing. -/
noncomputable def specWindowStd (xs : List ℝ) : ℝ :=
  Real.sqrt (((xs.map fun x => (x - xs.sum / xs.length) ^ 2).sum) / ((xs.length : ℝ) - 1))

/-- The order book of the spec's worked example (§8): bid levels
`[(100.0, 2.0), (99.5, 1.0)]` and ask levels `[(100.5, 1.5), (101.0, 3.0)]`,
with notional = price × qty. -/
def obExample : List Level :=
  [⟨Side.bid, 100, 2, 200⟩, ⟨Side.bid, 199/2, 1, 199/2⟩,
   ⟨Side.ask, 201/2, 3/2, 603/4⟩, ⟨Side.ask, 101, 3, 303⟩]

/-! ## Helper lemmas -/

theorem depthBand_milli (ob : List Level) :
    (liquidity_metrics ob).depth_10bp = depthBand ob (1/1000) := rfl

theorem pfAdd_none_left (a : Option ℚ) : pfAdd none a = none := rfl

theorem pfAdd_none_right (a : Option ℚ) : pfAdd a none = none := by
  cases a <;> rfl

theorem pfSub_none_left (a : Option ℚ) : pfSub none a = none := rfl

theorem pfSub_none_right (a : Option ℚ) : pfSub a none = none := by
  cases a <;> rfl

theorem pfMul_none_left (a : Option ℚ) : pfMul none a = none := rfl

theorem pfDiv_none_left (a : Option ℚ) : pfDiv none a = none := rfl

theorem pfLeB_none_left (a : Option ℚ) : pfLeB none a = false := rfl

theorem pfLeB_none_right (a : Option ℚ) : pfLeB a none = false := by
  cases a <;> rfl

theorem seriesMax_isSome {xs : List ℚ} (h : xs ≠ []) : ∃ m, seriesMax xs = some m := by
  cases xs with
  | nil => exact absurd rfl h
  | cons x t => cases h2 : seriesMax t <;> simp [seriesMax, h2]

theorem seriesMin_isSome {xs : List ℚ} (h : xs ≠ []) : ∃ m, seriesMin xs = some m := by
  cases xs with
  | nil => exact absurd rfl h
  | cons x t => cases h2 : seriesMin t <;> simp [seriesMin, h2]

theorem seriesMax_mem : ∀ {xs : List ℚ} {m : ℚ}, seriesMax xs = some m → m ∈ xs := by
  intro xs
  induction xs with
  | nil => intro m h; simp [seriesMax] at h
  | cons x t ih =>
    intro m h
    cases h2 : seriesMax t with
    | none => rw [seriesMax, h2] at h; cases h; exact List.mem_cons_self x t
    | some mt =>
      rw [seriesMax, h2] at h
      cases h
      rcases max_choice x mt with he | he
      · rw [he]; exact List.mem_cons_self x t
      · rw [he]; exact List.mem_cons_of_mem x (ih h2)

theorem seriesMin_mem : ∀ {xs : List ℚ} {m : ℚ}, seriesMin xs = some m → m ∈ xs := by
  intro xs
  induction xs with
  | nil => intro m h; simp [seriesMin] at h
  | cons x t ih =>
    intro m h
    cases h2 : seriesMin t with
    | none => rw [seriesMin, h2] at h; cases h; exact List.mem_cons_self x t
    | some mt =>
      rw [seriesMin, h2] at h
      cases h
      rcases min_choice x mt with he | he
      · rw [he]; exact List.mem_cons_self x t
      · rw [he]; exact List.mem_cons_of_mem x (ih h2)

theorem bestBid_isSome {ob : List Level} (h : ∃ l ∈ ob, l.side = Side.bid) :
    ∃ bb, bestBid ob = some bb := by
  rcases h with ⟨l, hl, hs⟩
  apply seriesMax_isSome
  apply List.ne_nil_of_mem (a := l.price)
  exact List.mem_map_of_mem Level.price (List.mem_filter.2 ⟨hl, by simp [hs]⟩)

theorem bestAsk_isSome {ob : List Level} (h : ∃ l ∈ ob, l.side = Side.ask) :
    ∃ ba, bestAsk ob = some ba := by
  rcases h with ⟨l, hl, hs⟩
  apply seriesMin_isSome
  apply List.ne_nil_of_mem (a := l.price)
  exact List.mem_map_of_mem Level.price (List.mem_filter.2 ⟨hl, by simp [hs]⟩)

theorem bestBid_mem {ob : List Level} {bb : ℚ} (h : bestBid ob = some bb) :
    ∃ l ∈ ob, l.side = Side.bid ∧ l.price = bb := by
  have := seriesMax_mem h
  rcases List.mem_map.1 this with ⟨l, hl, he⟩
  rcases List.mem_filter.1 hl with ⟨hmem, hside⟩
  exact ⟨l, hmem, by simpa using hside, he⟩

theorem bestAsk_mem {ob : List Level} {ba : ℚ} (h : bestAsk ob = some ba) :
    ∃ l ∈ ob, l.side = Side.ask ∧ l.price = ba := by
  have := seriesMin_mem h
  rcases List.mem_map.1 this with ⟨l, hl, he⟩
  rcases List.mem_filter.1 hl with ⟨hmem, hside⟩
  exact ⟨l, hmem, by simpa using hside, he⟩

theorem liquidity_metrics_mid {ob : List Level} {bb ba : ℚ}
    (hb : bestBid ob = some bb) (ha : bestAsk ob = some ba) :
    (liquidity_metrics ob).mid_price = some ((ba + bb) / 2) := by
  simp [liquidity_metrics, hb, ha, pfAdd, pfDiv]

theorem liquidity_metrics_spread {ob : List Level} {bb ba : ℚ}
    (hb : bestBid ob = some bb) (ha : bestAsk ob = some ba) :
    (liquidity_metrics ob).spread_abs = some (ba - bb) := by
  simp [liquidity_metrics, hb, ha, pfSub]

theorem liquidity_metrics_bps {ob : List Level} {bb ba : ℚ}
    (hb : bestBid ob = some bb) (ha : bestAsk ob = some ba) :
    (liquidity_metrics ob).spread_bps = some ((ba - bb) / ((ba + bb) / 2) * 10000) := by
  simp [liquidity_metrics, hb, ha, pfSub, pfAdd, pfDiv, pfMul]

theorem liquidity_metrics_depth {ob : List Level} {bb ba : ℚ}
    (hb : bestBid ob = some bb) (ha : bestAsk ob = some ba) :
    (liquidity_metrics ob).depth_10bp =
      ((ob.filter fun l =>
          decide (l.side = Side.bid) && decide (((ba + bb) / 2) * (1 - 1/1000) ≤ l.price)).map
        Level.notional).sum
      + ((ob.filter fun l =>
          decide (l.side = Side.ask) && decide (l.price ≤ ((ba + bb) / 2) * (1 + 1/1000))).map
        Level.notional).sum := by
  simp [liquidity_metrics, hb, ha, pfAdd, pfDiv, pfMul, pfLeB]

theorem optionSequence_some {α : Type} :
    ∀ {l : List (Option α)} {xs : List α}, optionSequence l = some xs →
      l.length = xs.length ∧
        ∀ i (h1 : i < l.length) (h2 : i < xs.length), l.get ⟨i, h1⟩ = some (xs.get ⟨i, h2⟩) := by
  intro l
  induction l with
  | nil =>
    intro xs h
    cases h
    exact ⟨rfl, fun i h1 _ => absurd h1 (Nat.not_lt_zero i)⟩
  | cons o t ih =>
    intro xs h
    cases o with
    | none => simp [optionSequence] at h
    | some x =>
      rw [optionSequence] at h
      cases ht : optionSequence t with
      | none => rw [ht] at h; simp at h
      | some ys =>
        rw [ht] at h
        cases h
        rcases ih ht with ⟨hlen, hget⟩
        refine ⟨by simp [hlen], ?_⟩
        intro i h1 h2
        cases i with
        | zero => rfl
        | succ j =>
          exact hget j (Nat.lt_of_succ_lt_succ h1) (Nat.lt_of_succ_lt_succ h2)

theorem optionSequence_map_some {α : Type} (l : List α) :
    optionSequence (l.map some) = some l := by
  induction l with
  | nil => rfl
  | cons x t ih => simp [optionSequence, ih]

theorem optionSequence_of_mem_none {α : Type} :
    ∀ {l : List (Option α)}, none ∈ l → optionSequence l = none := by
  intro l
  induction l with
  | nil => intro h; cases h
  | cons o t ih =>
    intro h
    cases o with
    | none => rfl
    | some x =>
      rw [optionSequence, ih (by
        rcases List.mem_cons.1 h with h' | h'
        · cases h'
        · exact h')]
      rfl

theorem sum_map_filter_mono (f : Level → ℚ) (p q : Level → Bool) :
    ∀ ls : List Level, (∀ l ∈ ls, 0 ≤ f l) → (∀ l ∈ ls, p l = true → q l = true) →
      ((ls.filter p).map f).sum ≤ ((ls.filter q).map f).sum := by
  intro ls
  induction ls with
  | nil => intro _ _; simp
  | cons a t ih =>
    intro hf hpq
    have hf' : ∀ l ∈ t, 0 ≤ f l := fun l hl => hf l (List.mem_cons_of_mem a hl)
    have hpq' : ∀ l ∈ t, p l = true → q l = true :=
      fun l hl => hpq l (List.mem_cons_of_mem a hl)
    have hrec := ih hf' hpq'
    by_cases hp : p a = true
    · have hq := hpq a (List.mem_cons_self a t) hp
      simp only [List.filter_cons, hp, hq, if_pos, List.map_cons, List.sum_cons]
      exact add_le_add_left hrec _
    · by_cases hq : q a = true
      · simp only [List.filter_cons, hq, if_pos]
        simp only [Bool.not_eq_true] at hp
        simp only [hp, Bool.false_eq_true, if_false, List.map_cons, List.sum_cons]
        calc ((t.filter p).map f).sum ≤ ((t.filter q).map f).sum := hrec
          _ ≤ f a + ((t.filter q).map f).sum := by
              have := hf a (List.mem_cons_self a t)
              linarith
      · simp only [Bool.not_eq_true] at hp hq
        simp only [List.filter_cons, hp, hq, Bool.false_eq_true, if_false]
        exact hrec

theorem cumsumFrom_chain' :
    ∀ (xs : List ℚ), (∀ x ∈ xs, 0 ≤ x) → ∀ acc : ℚ,
      List.Chain' (· ≤ ·) (cumsumFrom acc xs) := by
  intro xs
  induction xs with
  | nil => intro _ acc; simp [cumsumFrom]
  | cons x t ih =>
    intro h acc
    have hx : 0 ≤ x := h x (List.mem_cons_self x t)
    have ht : ∀ y ∈ t, 0 ≤ y := fun y hy => h y (List.mem_cons_of_mem x hy)
    rw [cumsumFrom]
    rw [List.chain'_cons']
    refine ⟨?_, ih ht (acc + x)⟩
    intro b hb
    cases t with
    | nil => simp [cumsumFrom] at hb
    | cons y t' =>
      rw [cumsumFrom] at hb
      simp only [List.head?_cons, Option.mem_def, Option.some.injEq] at hb
      have hy : 0 ≤ y := ht y (List.mem_cons_self y t')
      rw [← hb]
      linarith

theorem sortLevels_sorted (ls : List Level) : List.Sorted levelLE (sortLevels ls) :=
  List.sorted_insertionSort levelLE ls

theorem sidePrices_pairwise (ls : List Level) (s : Side) :
    List.Pairwise (· ≤ ·) (sidePrices (sortLevels ls) s) := by
  have h2 : List.Pairwise levelLE ((sortLevels ls).filter fun l => decide (l.side = s)) :=
    (sortLevels_sorted ls).filter _
  have h3 : List.Pairwise (fun a b : Level => a.price ≤ b.price)
      ((sortLevels ls).filter fun l => decide (l.side = s)) := by
    refine h2.imp_of_mem ?_
    intro a b ha hb hab
    have hsa : a.side = s := by simpa using (List.mem_filter.1 ha).2
    have hsb : b.side = s := by simpa using (List.mem_filter.1 hb).2
    rcases hab with h | ⟨_, hp⟩
    · rw [hsa, hsb] at h
      exact absurd h (lt_irrefl _)
    · exact hp
  rw [sidePrices]
  exact List.pairwise_map.2 h3

theorem parseKlineRow_time {j : Json} {cd : Candle} (h : parseKlineRow j = some cd) :
    ∃ ms : ℚ, jIdx j 6 = some (Json.num ms) ∧ cd.time = toDatetimeMsUtc ms := by
  unfold parseKlineRow at h
  split at h
  · split at h
    · cases h
      exact ⟨_, rfl, rfl⟩
    · cases h
  · cases h

theorem parseLevelRow_bad {s : Side} {p q : Json} (h : jnum p = none ∨ jnum q = none) :
    parseLevelRow s (Json.arr [p, q]) = none := by
  rcases h with h | h
  · cases hq : jnum q <;> simp [parseLevelRow, h, hq]
  · cases hp : jnum p <;> simp [parseLevelRow, h, hp]

theorem parseSide_bad {s : Side} {rows : List Json} {r : Json} (hr : r ∈ rows)
    (hnone : parseLevelRow s r = none) : parseSide s (Json.arr rows) = none := by
  rw [parseSide]
  exact optionSequence_of_mem_none (hnone ▸ List.mem_map_of_mem (parseLevelRow s) hr)

theorem diffLog_cons (c : ℝ) (rest : List ℝ) :
    diffLog (c :: rest) = none :: (logRets (c :: rest)).map some := by
  rw [diffLog, logRets]
  simp [List.map_zipWith]

theorem logRets_length (closes : List ℝ) : (logRets closes).length = closes.length - 1 := by
  rw [logRets]
  simp [List.length_zipWith]

theorem obExample_bestBid : bestBid obExample = some 100 := by
  simp [bestBid, bidPrices, obExample, seriesMax]
  norm_num [max_def]

theorem obExample_bestAsk : bestAsk obExample = some (201/2) := by
  simp [bestAsk, askPrices, obExample, seriesMin]
  norm_num [min_def]

/-- With an empty bid or ask column, both best quotes reduce every derived
quantity to NaN and empty the depth filters. -/
theorem liquidity_metrics_empty (ob : List Level)
    (h : ob.filter (fun l => decide (l.side = Side.bid)) = [] ∨
         ob.filter (fun l => decide (l.side = Side.ask)) = []) :
    liquidity_metrics ob = ⟨none, none, none, 0⟩ := by
  rcases h with h | h
  · have hb : bestBid ob = none := by simp [bestBid, bidPrices, h, seriesMax]
    simp [liquidity_metrics, hb, pfSub_none_right, pfAdd_none_right, pfDiv_none_left,
      pfMul_none_left, pfLeB_none_left, pfLeB_none_right]
  · have ha : bestAsk ob = none := by simp [bestAsk, askPrices, h, seriesMin]
    simp [liquidity_metrics, ha, pfSub_none_left, pfAdd_none_left, pfDiv_none_left,
      pfMul_none_left, pfLeB_none_left, pfLeB_none_right]

/-! ## Claim theorems -/

/-- C1 (counterexample): on an order book whose bid side has zero levels,
`liquidity_metrics` does not signal `EmptySideError`: it produces a
metrics value (with NaN quotes and zero depth) at this explicit input. -/
theorem liquidity_metrics_value_on_empty_side_cex :
    liquidity_metrics [⟨Side.ask, 100, 1, 100⟩] = ⟨none, none, none, 0⟩ :=
  liquidity_metrics_empty _ (Or.inl rfl)

/-- C1 (amended): for every order book in which the bid side or the ask
side has zero levels, `liquidity_metrics` returns normally, producing the
metrics value with NaN (`none`) `mid_price`, `spread_abs`, `spread_bps`
and zero `depth_±10bp_notional`, instead of signalling `EmptySideError`. -/
theorem liquidity_metrics_empty_side_returns_value (ob : List Level)
    (h : ob.filter (fun l => decide (l.side = Side.bid)) = [] ∨
         ob.filter (fun l => decide (l.side = Side.ask)) = []) :
    liquidity_metrics ob = ⟨none, none, none, 0⟩ :=
  liquidity_metrics_empty ob h

/-- Witness for C1 (amended) at a book holding a single bid level. -/
theorem liquidity_metrics_empty_side_returns_value_witness :
    (([⟨Side.bid, 50, 2, 100⟩] : List Level).filter
        (fun l => decide (l.side = Side.bid)) = [] ∨
     ([⟨Side.bid, 50, 2, 100⟩] : List Level).filter
        (fun l => decide (l.side = Side.ask)) = []) ∧
    liquidity_metrics [⟨Side.bid, 50, 2, 100⟩] = ⟨none, none, none, 0⟩ :=
  ⟨Or.inr (by decide),
   liquidity_metrics_empty_side_returns_value [⟨Side.bid, 50, 2, 100⟩] (Or.inr (by decide))⟩

/-- C10: for every order book in which the bid side or the ask side has
zero levels, `liquidity_metrics` returns normally without raising:
`mid_price`, `spread_abs` and `spread_bps` are NaN (`none`, the max/min of
an empty side) and the depth notional is `0`, since no level passes a
comparison against a NaN mid. -/
theorem liquidity_metrics_nan_on_empty_side (ob : List Level)
    (h : ob.filter (fun l => decide (l.side = Side.bid)) = [] ∨
         ob.filter (fun l => decide (l.side = Side.ask)) = []) :
    (liquidity_metrics ob).mid_price = none ∧
    (liquidity_metrics ob).spread_abs = none ∧
    (liquidity_metrics ob).spread_bps = none ∧
    (liquidity_metrics ob).depth_10bp = 0 := by
  rw [liquidity_metrics_empty ob h]
  exact ⟨rfl, rfl, rfl, rfl⟩

/-- Witness for C10 at the empty order book. -/
theorem liquidity_metrics_nan_on_empty_side_witness :
    (([] : List Level).filter (fun l => decide (l.side = Side.bid)) = [] ∨
     ([] : List Level).filter (fun l => decide (l.side = Side.ask)) = []) ∧
    ((liquidity_metrics []).mid_price = none ∧
     (liquidity_metrics []).spread_abs = none ∧
     (liquidity_metrics []).spread_bps = none ∧
     (liquidity_metrics []).depth_10bp = 0) :=
  ⟨Or.inl rfl, liquidity_metrics_nan_on_empty_side [] (Or.inl rfl)⟩

/-- C4: for every order book with at least one bid level and at least one
ask level, the metrics satisfy `spread_bps = spread_abs / mid_price × 10000`
exactly, where `mid_price = (best_bid + best_ask) / 2` and
`spread_abs = best_ask − best_bid`. -/
theorem spread_bps_unit_consistency (ob : List Level)
    (hbid : ∃ l ∈ ob, l.side = Side.bid) (hask : ∃ l ∈ ob, l.side = Side.ask) :
    ∃ bb ba m s bps,
      bestBid ob = some bb ∧ bestAsk ob = some ba ∧
      (liquidity_metrics ob).mid_price = some m ∧
      (liquidity_metrics ob).spread_abs = some s ∧
      (liquidity_metrics ob).spread_bps = some bps ∧
      m = (bb + ba) / 2 ∧ s = ba - bb ∧ bps = s / m * 10000 := by
  obtain ⟨bb, hb⟩ := bestBid_isSome hbid
  obtain ⟨ba, ha⟩ := bestAsk_isSome hask
  exact ⟨bb, ba, _, _, _, hb, ha, liquidity_metrics_mid hb ha,
    liquidity_metrics_spread hb ha, liquidity_metrics_bps hb ha, by ring, rfl, rfl⟩

/-- Witness for C4 at the spec's worked example book. -/
theorem spread_bps_unit_consistency_witness :
    (∃ l ∈ obExample, l.side = Side.bid) ∧ (∃ l ∈ obExample, l.side = Side.ask) ∧
    (∃ bb ba m s bps,
      bestBid obExample = some bb ∧ bestAsk obExample = some ba ∧
      (liquidity_metrics obExample).mid_price = some m ∧
      (liquidity_metrics obExample).spread_abs = some s ∧
      (liquidity_metrics obExample).spread_bps = some bps ∧
      m = (bb + ba) / 2 ∧ s = ba - bb ∧ bps = s / m * 10000) :=
  ⟨by decide, by decide, spread_bps_unit_consistency obExample (by decide) (by decide)⟩

/-- C5: for every order book with at least one bid level and at least one
ask level whose best quotes are not crossed (`best_bid ≤ best_ask`),
`spread_abs = best_ask − best_bid ≥ 0` and `mid_price` lies between
`best_bid` and `best_ask` inclusive. -/
theorem spread_nonneg_mid_between (ob : List Level)
    (hbid : ∃ l ∈ ob, l.side = Side.bid) (hask : ∃ l ∈ ob, l.side = Side.ask)
    (hnc : ∀ bb ba, bestBid ob = some bb → bestAsk ob = some ba → bb ≤ ba) :
    ∃ bb ba m s,
      bestBid ob = some bb ∧ bestAsk ob = some ba ∧
      (liquidity_metrics ob).mid_price = some m ∧
      (liquidity_metrics ob).spread_abs = some s ∧
      s = ba - bb ∧ 0 ≤ s ∧ bb ≤ m ∧ m ≤ ba := by
  obtain ⟨bb, hb⟩ := bestBid_isSome hbid
  obtain ⟨ba, ha⟩ := bestAsk_isSome hask
  have hle := hnc bb ba hb ha
  refine ⟨bb, ba, (ba + bb) / 2, ba - bb, hb, ha, liquidity_metrics_mid hb ha,
    liquidity_metrics_spread hb ha, rfl, by linarith, by linarith, by linarith⟩

/-- Witness for C5 at the spec's worked example book. -/
theorem spread_nonneg_mid_between_witness :
    (∃ l ∈ obExample, l.side = Side.bid) ∧ (∃ l ∈ obExample, l.side = Side.ask) ∧
    (∃ bb ba m s,
      bestBid obExample = some bb ∧ bestAsk obExample = some ba ∧
      (liquidity_metrics obExample).mid_price = some m ∧
      (liquidity_metrics obExample).spread_abs = some s ∧
      s = ba - bb ∧ 0 ≤ s ∧ bb ≤ m ∧ m ≤ ba) :=
  ⟨by decide, by decide,
   spread_nonneg_mid_between obExample (by decide) (by decide) (by
    intro bb ba hbb hba
    rw [obExample_bestBid] at hbb
    rw [obExample_bestAsk] at hba
    cases hbb
    cases hba
    norm_num)⟩

/-- C6: for every order book with at least one bid and one ask level (best
quotes `bb`, `ba`), the `depth_±10bp_notional` computed by
`liquidity_metrics` equals the sum over bid levels with
`price ≥ mid×(1−0.001)` of `price × qty` plus the sum over ask levels with
`price ≤ mid×(1+0.001)` of `price × qty`, both bounds inclusive, with
`mid = (bb + ba)/2` and notional per level defined as `price × qty`. -/
theorem depth_band_notional_formula (ob : List Level) (bb ba : ℚ)
    (hb : bestBid ob = some bb) (ha : bestAsk ob = some ba)
    (hno : ∀ l ∈ ob, l.notional = l.price * l.qty) :
    (liquidity_metrics ob).depth_10bp =
      ((ob.filter fun l =>
          decide (l.side = Side.bid ∧ (bb + ba) / 2 * (1 - 1/1000) ≤ l.price)).map
        (fun l => l.price * l.qty)).sum
      + ((ob.filter fun l =>
          decide (l.side = Side.ask ∧ l.price ≤ (bb + ba) / 2 * (1 + 1/1000))).map
        (fun l => l.price * l.qty)).sum := by
  have hmid : (ba + bb) / 2 = (bb + ba) / 2 := by ring
  rw [liquidity_metrics_depth hb ha]
  have e1 : (ob.filter fun l =>
        decide (l.side = Side.bid) && decide ((ba + bb) / 2 * (1 - 1/1000) ≤ l.price))
      = ob.filter fun l =>
        decide (l.side = Side.bid ∧ (bb + ba) / 2 * (1 - 1/1000) ≤ l.price) := by
    apply List.filter_congr
    intro l _
    rw [Bool.decide_and, hmid]
  have e2 : (ob.filter fun l =>
        decide (l.side = Side.ask) && decide (l.price ≤ (ba + bb) / 2 * (1 + 1/1000)))
      = ob.filter fun l =>
        decide (l.side = Side.ask ∧ l.price ≤ (bb + ba) / 2 * (1 + 1/1000)) := by
    apply List.filter_congr
    intro l _
    rw [Bool.decide_and, hmid]
  rw [e1, e2]
  have m1 := List.map_congr_left
    (l := ob.filter fun l =>
      decide (l.side = Side.bid ∧ (bb + ba) / 2 * (1 - 1/1000) ≤ l.price))
    (f := Level.notional) (g := fun l => l.price * l.qty)
    (fun l hl => hno l (List.mem_of_mem_filter hl))
  have m2 := List.map_congr_left
    (l := ob.filter fun l =>
      decide (l.side = Side.ask ∧ l.price ≤ (bb + ba) / 2 * (1 + 1/1000)))
    (f := Level.notional) (g := fun l => l.price * l.qty)
    (fun l hl => hno l (List.mem_of_mem_filter hl))
  rw [m1, m2]

/-- Witness for C6 at the spec's worked example book. -/
theorem depth_band_notional_formula_witness :
    bestBid obExample = some 100 ∧ bestAsk obExample = some (201/2) ∧
    (∀ l ∈ obExample, l.notional = l.price * l.qty) ∧
    (liquidity_metrics obExample).depth_10bp =
      ((obExample.filter fun l =>
          decide (l.side = Side.bid ∧ (100 + 201/2) / 2 * (1 - 1/1000) ≤ l.price)).map
        (fun l => l.price * l.qty)).sum
      + ((obExample.filter fun l =>
          decide (l.side = Side.ask ∧ l.price ≤ (100 + 201/2) / 2 * (1 + 1/1000))).map
        (fun l => l.price * l.qty)).sum :=
  ⟨obExample_bestBid, obExample_bestAsk,
   by intro l hl; fin_cases hl <;> norm_num [obExample],
   depth_band_notional_formula obExample 100 (201/2) obExample_bestBid obExample_bestAsk
     (by intro l hl; fin_cases hl <;> norm_num [obExample])⟩

/-- C7: for every order book with at least one bid and one ask level whose
level prices and quantities are non-negative (notional being
`price × qty`), and any two band half-widths `w1 ≤ w2`, the depth-band
notional — the sum computed by `liquidity_metrics`, with the half-width
generalized from the fixed `0.001` — at `w1` is at most the one at `w2`. -/
theorem depthBand_monotone_in_width (ob : List Level) (bb ba : ℚ)
    (hb : bestBid ob = some bb) (ha : bestAsk ob = some ba)
    (hnn : ∀ l ∈ ob, 0 ≤ l.price ∧ 0 ≤ l.qty)
    (hno : ∀ l ∈ ob, l.notional = l.price * l.qty)
    (w1 w2 : ℚ) (h12 : w1 ≤ w2) :
    depthBand ob w1 ≤ depthBand ob w2 ∧
    (liquidity_metrics ob).depth_10bp = depthBand ob (1/1000) := by
  refine ⟨?_, depthBand_milli ob⟩
  have hmid : pfDiv (pfAdd (bestAsk ob) (bestBid ob)) (some 2) = some ((ba + bb) / 2) := by
    rw [ha, hb]; rfl
  have hm : 0 ≤ (ba + bb) / 2 := by
    obtain ⟨l1, hl1, _, hp1⟩ := bestBid_mem hb
    obtain ⟨l2, hl2, _, hp2⟩ := bestAsk_mem ha
    have h1 := (hnn l1 hl1).1
    have h2 := (hnn l2 hl2).1
    rw [hp1] at h1
    rw [hp2] at h2
    linarith
  have hfnn : ∀ l ∈ ob, 0 ≤ l.notional := fun l hl => by
    rw [hno l hl]; exact mul_nonneg (hnn l hl).1 (hnn l hl).2
  simp only [depthBand, hmid, pfMul, pfLeB]
  apply add_le_add
  · apply sum_map_filter_mono _ _ _ ob hfnn
    intro l _ hcond
    simp only [Bool.and_eq_true, decide_eq_true_eq] at hcond ⊢
    refine ⟨hcond.1, le_trans ?_ hcond.2⟩
    exact mul_le_mul_of_nonneg_left (by linarith) hm
  · apply sum_map_filter_mono _ _ _ ob hfnn
    intro l _ hcond
    simp only [Bool.and_eq_true, decide_eq_true_eq] at hcond ⊢
    refine ⟨hcond.1, le_trans hcond.2 ?_⟩
    exact mul_le_mul_of_nonneg_left (by linarith) hm

/-- Witness for C7 at the spec's worked example book, half-widths
`1/2000 ≤ 1/1000`. -/
theorem depthBand_monotone_in_width_witness :
    bestBid obExample = some 100 ∧ bestAsk obExample = some (201/2) ∧
    (∀ l ∈ obExample, 0 ≤ l.price ∧ 0 ≤ l.qty) ∧
    (∀ l ∈ obExample, l.notional = l.price * l.qty) ∧
    ((1:ℚ)/2000 ≤ 1/1000) ∧
    (depthBand obExample (1/2000) ≤ depthBand obExample (1/1000) ∧
     (liquidity_metrics obExample).depth_10bp = depthBand obExample (1/1000)) :=
  ⟨obExample_bestBid, obExample_bestAsk,
   by intro l hl; fin_cases hl <;> norm_num [obExample],
   by intro l hl; fin_cases hl <;> norm_num [obExample],
   by norm_num,
   depthBand_monotone_in_width obExample 100 (201/2) obExample_bestBid obExample_bestAsk
     (by intro l hl; fin_cases hl <;> norm_num [obExample])
     (by intro l hl; fin_cases hl <;> norm_num [obExample])
     (1/2000) (1/1000) (by norm_num)⟩

/-- C8: for every order book whose level quantities are non-negative, the
cumulative quantity per side used for the depth chart (running sum of
`qty` after sorting each side ascending by price) is non-decreasing along
the sorted price sequence of that side (which is itself sorted). -/
theorem depth_chart_cum_qty_monotone (ls : List Level)
    (hq : ∀ l ∈ ls, 0 ≤ l.qty) (s : Side) :
    List.Chain' (· ≤ ·) (sidePrices (sortLevels ls) s) ∧
    List.Chain' (· ≤ ·) (cumQtySide (sortLevels ls) s) := by
  constructor
  · exact List.chain'_iff_pairwise.2 (sidePrices_pairwise ls s)
  · rw [cumQtySide, cumsum]
    apply cumsumFrom_chain'
    intro x hx
    rcases List.mem_map.1 hx with ⟨l, hl, he⟩
    have hmem : l ∈ ls := by
      have h1 : l ∈ sortLevels ls := List.mem_of_mem_filter hl
      exact ((List.perm_insertionSort levelLE ls).mem_iff).1 h1
    rw [← he]
    exact hq l hmem

/-- Witness for C8 at the spec's worked example book, bid side. -/
theorem depth_chart_cum_qty_monotone_witness :
    (∀ l ∈ obExample, 0 ≤ l.qty) ∧
    (List.Chain' (· ≤ ·) (sidePrices (sortLevels obExample) Side.bid) ∧
     List.Chain' (· ≤ ·) (cumQtySide (sortLevels obExample) Side.bid)) :=
  ⟨by intro l hl; fin_cases hl <;> norm_num [obExample],
   depth_chart_cum_qty_monotone obExample
     (by intro l hl; fin_cases hl <;> norm_num [obExample]) Side.bid⟩

/-- C3: for every order-book API response that is malformed — the object
is missing the `bids` or `asks` key, or some `[price, qty]` row has a
non-numeric price or quantity field — `get_orderbook` raises
`DataFormatError` (the uncaught `KeyError`/`ValueError`) rather than
returning a result. -/
theorem get_orderbook_malformed_raises (raw : Json)
    (h : jget raw "bids" = none ∨ jget raw "asks" = none ∨
      (∃ key s rows, ((key, s) = ("bids", Side.bid) ∨ (key, s) = ("asks", Side.ask)) ∧
        jget raw key = some (Json.arr rows) ∧
        ∃ r ∈ rows, ∃ p q, r = Json.arr [p, q] ∧ (jnum p = none ∨ jnum q = none))) :
    get_orderbook raw = .error DataFormatError.dataFormat := by
  rw [get_orderbook]
  rcases h with h | h | h
  · rw [h]
  · rw [h]
    cases jget raw "bids" <;> rfl
  · rcases h with ⟨key, s, rows, hkey, hget, r, hr, p, q, hrq, hbad⟩
    have hside : parseSide s (Json.arr rows) = none :=
      parseSide_bad hr (hrq ▸ parseLevelRow_bad hbad)
    rcases hkey with hk | hk
    · cases hk
      rw [hget]
      cases jget raw "asks" with
      | none => rfl
      | some ja =>
        simp only [hside]
    · cases hk
      rw [hget]
      cases jget raw "bids" with
      | none => rfl
      | some jb =>
        simp only [hside]
        cases parseSide Side.bid jb <;> rfl


/-- Witness for C3 at a response missing the `bids` key. -/
theorem get_orderbook_malformed_raises_witness :
    (jget (Json.obj [("asks", Json.arr [])]) "bids" = none ∨
     jget (Json.obj [("asks", Json.arr [])]) "asks" = none ∨
      (∃ key s rows, ((key, s) = ("bids", Side.bid) ∨ (key, s) = ("asks", Side.ask)) ∧
        jget (Json.obj [("asks", Json.arr [])]) key = some (Json.arr rows) ∧
        ∃ r ∈ rows, ∃ p q, r = Json.arr [p, q] ∧ (jnum p = none ∨ jnum q = none))) ∧
    get_orderbook (Json.obj [("asks", Json.arr [])]) = .error DataFormatError.dataFormat :=
  ⟨Or.inl rfl, get_orderbook_malformed_raises _ (Or.inl rfl)⟩

/-- C9: for every well-formed candle response, `get_klines` assigns each
returned candle a UTC-aware timestamp derived from the exchange-supplied
millisecond `close_time` field (position 6 of the row, per `klineCols`;
position 0 is `open_time`), not its open time. -/
theorem get_klines_uses_close_time (rows : List Json) (cs : List Candle)
    (h : get_klines (Json.arr rows) = .ok cs) :
    cs.length = rows.length ∧
    klineCols.get? 6 = some "close_time" ∧ klineCols.get? 0 = some "open_time" ∧
    ∀ i (hi : i < cs.length) (hr : i < rows.length),
      ∃ ms : ℚ, jIdx (rows.get ⟨i, hr⟩) 6 = some (Json.num ms) ∧
        (cs.get ⟨i, hi⟩).time = toDatetimeMsUtc ms := by
  rw [get_klines] at h
  cases hseq : optionSequence (rows.map parseKlineRow) with
  | none => rw [hseq] at h; cases h
  | some cs' =>
    rw [hseq] at h
    cases h
    obtain ⟨hlen, hget⟩ := optionSequence_some hseq
    rw [List.length_map] at hlen
    refine ⟨hlen.symm, rfl, rfl, ?_⟩
    intro i hi hr
    have hmap := hget i (by rw [List.length_map]; exact hr) hi
    rw [List.get_eq_getElem, List.getElem_map] at hmap
    exact parseKlineRow_time hmap

/-- Witness for C9 at a one-row kline response with close time
`1700000000000` ms. -/
theorem get_klines_uses_close_time_witness :
    get_klines (Json.arr [Json.arr [Json.num 0, Json.num 1, Json.num 2, Json.num 0,
        Json.num 1, Json.num 3, Json.num 1700000000000, Json.num 0, Json.num 10,
        Json.num 0, Json.num 0, Json.num 0]])
      = .ok [⟨toDatetimeMsUtc 1700000000000, some 1, some 2, some 0, some 1, some 3⟩] ∧
    (([(⟨toDatetimeMsUtc 1700000000000, some 1, some 2, some 0, some 1, some 3⟩ : Candle)]).length
        = ([Json.arr [Json.num 0, Json.num 1, Json.num 2, Json.num 0,
            Json.num 1, Json.num 3, Json.num 1700000000000, Json.num 0, Json.num 10,
            Json.num 0, Json.num 0, Json.num 0]]).length ∧
     klineCols.get? 6 = some "close_time" ∧ klineCols.get? 0 = some "open_time" ∧
     ∀ i (hi : i < ([(⟨toDatetimeMsUtc 1700000000000, some 1, some 2, some 0, some 1,
            some 3⟩ : Candle)]).length)
        (hr : i < ([Json.arr [Json.num 0, Json.num 1, Json.num 2, Json.num 0,
            Json.num 1, Json.num 3, Json.num 1700000000000, Json.num 0, Json.num 10,
            Json.num 0, Json.num 0, Json.num 0]]).length),
       ∃ ms : ℚ,
         jIdx (([Json.arr [Json.num 0, Json.num 1, Json.num 2, Json.num 0,
             Json.num 1, Json.num 3, Json.num 1700000000000, Json.num 0, Json.num 10,
             Json.num 0, Json.num 0, Json.num 0]]).get ⟨i, hr⟩) 6 = some (Json.num ms) ∧
         (([(⟨toDatetimeMsUtc 1700000000000, some 1, some 2, some 0, some 1, some 3⟩ :
             Candle)]).get ⟨i, hi⟩).time = toDatetimeMsUtc ms) :=
  ⟨rfl, get_klines_uses_close_time _ _ rfl⟩

/-- C2 (counterexample): for `closes = [1, 1, 2]` and `window = 2` the
volatility series does not have exactly `window − 1 = 1` leading zero
entries: the entry at position 1 is also zero (the NaN from `diff`
poisons its window), while the entry at position 2 is non-zero — so
there are two leading zeros, not one. -/
theorem realized_vol_leading_zeros_cex :
    (realized_vol [1, 1, 2] 2)[1]? = some 0 ∧
    (realized_vol [1, 1, 2] 2)[2]? ≠ some 0 := by
  have hlr : logRets [(1:ℝ), 1, 2] = [0, Real.log 2] := by
    rw [logRets]
    simp [List.zipWith, Real.log_one]
  constructor
  · rw [realized_vol, List.getElem?_map, List.getElem?_range (by norm_num), Option.map_some']
    have hnone : rollingStdAt (diffLog [1, 1, 2]) 2 1 = none := by
      rw [rollingStdAt, if_neg (by omega)]
      rw [show (1 + 1 - 2 : ℕ) = 0 from rfl, List.drop_zero, diffLog_cons, List.take_succ_cons]
      rfl
    rw [hnone]
  · rw [realized_vol, List.getElem?_map, List.getElem?_range (by norm_num), Option.map_some']
    have hroll : rollingStdAt (diffLog [1, 1, 2]) 2 2 =
        some (Real.sqrt (Real.log 2 ^ 2 / 2)) := by
      rw [rollingStdAt, if_neg (by omega), diffLog_cons, hlr]
      rw [show (2 + 1 - 2 : ℕ) = 1 from rfl, List.drop_succ_cons, List.drop_zero]
      rw [show ([(0:ℝ), Real.log 2].map some).take 2 = [some 0, some (Real.log 2)] from rfl]
      rw [show optionSequence [some (0:ℝ), some (Real.log 2)] = some [0, Real.log 2] from rfl]
      rw [Option.some_bind, sampleStd, if_neg (by norm_num)]
      congr 2
      simp only [List.map_cons, List.map_nil, List.sum_cons, List.sum_nil, List.length_cons,
        List.length_nil]
      push_cast
      ring
    rw [hroll]
    intro hc
    rw [Option.some.injEq] at hc
    have h1 : 0 < Real.sqrt (Real.log 2 ^ 2 / 2) :=
      Real.sqrt_pos.2 (div_pos (pow_pos (Real.log_pos one_lt_two) 2) two_pos)
    have h2 : 0 < Real.sqrt 60 := Real.sqrt_pos.2 (by norm_num)
    exact ne_of_gt (mul_pos h1 h2) hc

/-- C2 (amended): for every series of `n` positive closes and every window
with `2 ≤ window ≤ n`, the volatility series has its first `window`
entries equal to zero (the `diff` NaN makes the window ending at position
`window − 1` incomplete as well), and every entry at position
`window ≤ i < n` is the sample standard deviation (`ddof = 1`) of the
trailing `window` log-returns, scaled by `√60`. -/
theorem realized_vol_window_structure (closes : List ℝ) (window : ℕ)
    (h2 : 2 ≤ window) (hw : window ≤ closes.length)
    (hpos : ∀ c ∈ closes, 0 < c) :
    (∀ i < window, (realized_vol closes window)[i]? = some 0) ∧
    (∀ i, window ≤ i → i < closes.length →
      (realized_vol closes window)[i]? =
        some (specWindowStd (trailingReturns closes window i) * Real.sqrt 60)) := by
  obtain ⟨c, rest, rfl⟩ : ∃ c rest, closes = c :: rest := by
    cases closes with
    | nil => simp at hw; omega
    | cons c rest => exact ⟨c, rest, rfl⟩
  constructor
  · intro i hi
    have hin : i < (c :: rest).length := lt_of_lt_of_le hi hw
    rw [realized_vol, List.getElem?_map, List.getElem?_range hin, Option.map_some']
    have hnone : rollingStdAt (diffLog (c :: rest)) window i = none := by
      rw [rollingStdAt]
      by_cases hlt : i + 1 < window
      · rw [if_pos hlt]
      · rw [if_neg hlt]
        have hdrop : i + 1 - window = 0 := by omega
        obtain ⟨w', rfl⟩ : ∃ w', window = w' + 1 := ⟨window - 1, by omega⟩
        rw [hdrop, List.drop_zero, diffLog_cons, List.take_succ_cons]
        rfl
    rw [hnone]
  · intro i hwi hin
    rw [realized_vol, List.getElem?_map, List.getElem?_range hin, Option.map_some']
    have hge : ¬ (i + 1 < window) := by omega
    have hdrop : i + 1 - window = (i - window) + 1 := by omega
    have hlen : (((logRets (c :: rest)).drop (i - window)).take window).length = window := by
      rw [List.length_take, List.length_drop, logRets_length]
      simp only [List.length_cons] at hin ⊢
      omega
    have hroll : rollingStdAt (diffLog (c :: rest)) window i =
        some (specWindowStd (trailingReturns (c :: rest) window i)) := by
      rw [rollingStdAt, if_neg hge, hdrop, diffLog_cons, List.drop_succ_cons,
        ← List.map_drop, ← List.map_take, optionSequence_map_some]
      show sampleStd _ = _
      rw [sampleStd, if_neg (by rw [hlen]; omega)]
      rw [trailingReturns, specWindowStd]
    rw [hroll]

/-- Witness for C2 (amended) at `closes = [1, 1, 2]`, `window = 2`. -/
theorem realized_vol_window_structure_witness :
    (2 ≤ 2) ∧ (2 ≤ ([1, 1, 2] : List ℝ).length) ∧ (∀ c ∈ ([1, 1, 2] : List ℝ), 0 < c) ∧
    ((∀ i < 2, (realized_vol [1, 1, 2] 2)[i]? = some 0) ∧
     (∀ i, 2 ≤ i → i < ([1, 1, 2] : List ℝ).length →
       (realized_vol [1, 1, 2] 2)[i]? =
         some (specWindowStd (trailingReturns [1, 1, 2] 2 i) * Real.sqrt 60))) :=
  ⟨by norm_num, by norm_num, by intro c hc; fin_cases hc <;> norm_num,
   realized_vol_window_structure [1, 1, 2] 2 (by norm_num) (by norm_num)
     (by intro c hc; fin_cases hc <;> norm_num)⟩
